import Mathlib

/-!
Verification development for the ICMP Echo ("ping") engine of the CinCout
repository, embedded from `src/backend/templates/cpp/Raw Socket.cpp`.

Conventions of the shallow embedding:
* Byte buffers are `List ℕ` whose produced entries are `< 256`.
* The program runs on a little-endian host (the deployment targets of this
  code base), so a `uint16_t` read at an even offset has the numeric value
  `b0 + 256 * b1`, and a `uint16_t` store writes the bytes
  `[v % 256, v / 256]`.
* C bit operations on `uint32_t` are rendered with `/` and `%`:
  `x >> 16` is `x / 65536`, `x & 0xffff` is `x % 65536`, `~x` (for
  `x < 2^32`) is `4294967295 - x`, and the `uint16_t` cast is `% 65536`.
* Machine-integer overflow is explicit: the `uint32_t` accumulator of
  `checksum` reduces `% 4294967296` at every addition.
* Clock instants (`steady_clock` at send and receive) are natural numbers
  in milliseconds; the reported RTT is their truncated difference, matching
  `duration_cast<milliseconds>(t2 - t1).count()` for `t2 ≥ t1`.
* OS interactions are inputs of the model: the outcome of `getaddrinfo`
  and `socket` are booleans, and each `recvfrom` result is
  `Option (source × bytes)` (`none` for a failed call, `some` for a
  delivered datagram whose byte count is its length).
-/

/-- The summing loop of `checksum` (lines 15-20 of `Raw Socket.cpp`):
`while (len > 1) sum += *ptr++, len -= 2; if (len) sum += *(uint8_t*)ptr;`
with the `uint32_t` accumulator `sum` wrapping modulo `2^32` at each step.
A full 16-bit word read on the little-endian host is `b0 + 256 * b1`; a
trailing lone byte is added as a plain (weight-1) value. -/
def checksum_loop : List ℕ → ℕ → ℕ
  | [], s => s
  | [b], s => (s + b) % 4294967296
  | b0 :: b1 :: rest, s => checksum_loop rest ((s + (b0 + 256 * b1)) % 4294967296)

/-- `checksum` (lines 13-24 of `Raw Socket.cpp`): Internet checksum of a byte
buffer.  After the summing loop, `sum = (sum >> 16) + (sum & 0xffff);`,
`sum += sum >> 16;`, `return (uint16_t)~sum;`. -/
def checksum (l : List ℕ) : ℕ :=
  let sum := checksum_loop l 0
  let sum2 := sum / 65536 + sum % 65536
  let sum3 := sum2 + sum2 / 65536
  (4294967295 - sum3) % 65536

/-- Unwrapped word total of a buffer: the exact (ℕ) sum of the 16-bit
little-endian word values, a trailing lone byte contributing its plain
value.  Reference function used to reason about `checksum_loop`. -/
def wordSum : List ℕ → ℕ
  | [] => 0
  | [b] => b
  | b0 :: b1 :: rest => b0 + 256 * b1 + wordSum rest

/-- Final carry-fold and complement of `checksum`, as a function of the
32-bit accumulated sum. -/
def chkFin (A : ℕ) : ℕ :=
  (4294967295 - (A / 65536 + A % 65536 + (A / 65536 + A % 65536) / 65536)) % 65536

/-- Little-endian byte image of a value, `n` bytes long: how the
little-endian host lays out a `uint16_t` store or the `memcpy` of the
64-bit timestamp in `fill_packet`. -/
def leBytes : ℕ → ℕ → List ℕ
  | 0, _ => []
  | n + 1, v => v % 256 :: leBytes n (v / 256)

/-- The final statement of `fill_packet` (line 55 of `Raw Socket.cpp`):
`icmp_hdr->icmp_cksum = c;` stores the 16-bit value `c` into bytes 2 and 3
of the buffer (little-endian store at offset 2).  A buffer shorter than the
4-byte prefix is returned unchanged (the source never stores into one). -/
def store_cksum : List ℕ → ℕ → List ℕ
  | b0 :: b1 :: _ :: _ :: rest, c => b0 :: b1 :: c % 256 :: c / 256 :: rest
  | l, _ => l

/-- State of the 64-byte send buffer after `fill_packet` (lines 44-56 of
`Raw Socket.cpp`) has zero-filled it and written every field except the
checksum: `icmp_type = ICMP_ECHO` (8) at offset 0, `icmp_code` left 0 at
offset 1, the checksum field still 0 at offsets 2-3, `icmp_id = id` at
offsets 4-5 and `icmp_seq = seq` at offsets 6-7 (plain host-order stores,
no `htons`), and the 8 timestamp bytes `memcpy`-ed at offset
`sizeof(icmp) = 28` (glibc layout of `struct icmp`), the rest staying 0. -/
def fill_packet_pre (id sq now : ℕ) : List ℕ :=
  8 :: 0 :: 0 :: 0 ::
    (leBytes 2 id ++ leBytes 2 sq ++ List.replicate 20 0 ++ leBytes 8 now ++
      List.replicate 28 0)

/-- `fill_packet` (lines 44-56 of `Raw Socket.cpp`): builds the request
buffer, then computes `checksum` over the whole 64-byte buffer (checksum
field still zero) and stores the result into the checksum field.  `now` is
the microsecond reading of `high_resolution_clock` taken during the call. -/
def fill_packet (id sq now : ℕ) : List ℕ :=
  store_cksum (fill_packet_pre id sq now) (checksum (fill_packet_pre id sq now))

/-- Decomposition of a byte buffer into the 16-bit word values the
little-endian host reads: pairs of bytes become `b0 + 256 * b1`; a trailing
lone byte contributes its plain value (the low byte of a word padded with a
zero high byte), exactly as `sum += *(uint8_t*)ptr` does. -/
def toWords16 : List ℕ → List ℕ
  | [] => []
  | [b] => [b]
  | b0 :: b1 :: rest => (b0 + 256 * b1) :: toWords16 rest

/-- Word decomposition as the spec sentence of C3 words it: the trailing
lone byte of an odd-length buffer is "the high byte of a 16-bit word whose
low byte is zero", i.e. it contributes with weight 256. -/
def toWords16HighPad : List ℕ → List ℕ
  | [] => []
  | [b] => [256 * b]
  | b0 :: b1 :: rest => (b0 + 256 * b1) :: toWords16HighPad rest

/-- The 32-bit accumulating sum of a word list (wrapping at each step, as
a `uint32_t` accumulator does). -/
def sum32 (ws : List ℕ) : ℕ := ws.foldl (fun s w => (s + w) % 4294967296) 0

/-- The Internet-checksum formula as the spec states it: sum the words with
32-bit accumulation, apply `sum = (sum >> 16) + (sum & 0xffff)` twice, and
return the one's complement of the low 16 bits. -/
def inet_checksum (ws : List ℕ) : ℕ :=
  65535 - ((sum32 ws / 65536 + sum32 ws % 65536) / 65536
    + (sum32 ws / 65536 + sum32 ws % 65536) % 65536) % 65536

/-- Claim C3 as stated: `checksum` equals the Internet-checksum formula
with the odd trailing byte contributing as the HIGH byte of a
zero-low-byte word. -/
def C3Claim : Prop := ∀ l : List ℕ, checksum l = inet_checksum (toWords16HighPad l)

/-- Observable outcome of the receive-and-report part of one loop
iteration: either a printed `Reply from src: icmp_seq=sq, time=rtt ms`
line, or nothing. The source has no constructor for a lost or discarded
reply: no other outcome exists in `main`. -/
inductive Outcome where
  | reply (src sq rtt : ℕ)
  | silent
  deriving DecidableEq

/-- Receive-and-report step of one loop iteration (lines 75-85 of
`Raw Socket.cpp`): `recvfrom` either fails (`none`) or delivers a datagram
`some (src, data)` whose return value is `data.length`; the guard is
`recvfrom(...) > 0`.  When the guard holds the program prints
`Reply from src: icmp_seq=sq, time=(t2 - t1) ms` using only the sender
address, its own current sequence counter and the two `steady_clock`
readings — no byte of `data` is inspected. -/
def pingOutcome (sq : ℕ) (recv : Option (ℕ × List ℕ)) (t1 t2 : ℕ) : Outcome :=
  match recv with
  | some (src, data) =>
    if 0 < data.length then Outcome.reply src sq (t2 - t1) else Outcome.silent
  | none => Outcome.silent

/-- Identifier field of a received datagram, read at bytes 4-5 with the
same field encoding the request uses.  This is only used to state claims;
the program itself never reads it. -/
def replyId (data : List ℕ) : ℕ := data.getD 4 0 + 256 * data.getD 5 0

/-- Sequence field of a received datagram, read at bytes 6-7 with the same
field encoding the request uses.  Only used to state claims. -/
def replySeq (data : List ℕ) : ℕ := data.getD 6 0 + 256 * data.getD 7 0

/-- Claim C1 as stated: a datagram is reported as a successful reply only
if it matches the outstanding request (length at least a header, identifier
equals the session identifier, sequence equals the current sequence, and
the recomputed checksum verifies), and the reported RTT is
receive instant minus send instant. -/
def C1Claim : Prop :=
  ∀ (pid sq : ℕ) (recv : Option (ℕ × List ℕ)) (t1 t2 src rtt : ℕ),
    pingOutcome sq recv t1 t2 = Outcome.reply src sq rtt →
    ∃ data, recv = some (src, data) ∧ 8 ≤ data.length ∧ replyId data = pid ∧
      replySeq data = sq ∧ checksum data = 0 ∧ rtt = t2 - t1

/-- Claim C5 as stated (the byte-order part): the request buffer is 64
bytes, type 8 at offset 0, code 0 at offset 1, and the 2-byte identifier
and sequence fields are written in network byte order (most significant
byte first) at offsets 4-5 and 6-7. -/
def C5Claim : Prop :=
  ∀ id sq now : ℕ, id < 65536 → sq < 65536 → now < 18446744073709551616 →
    (fill_packet id sq now).length = 64 ∧
    (fill_packet id sq now).getD 0 0 = 8 ∧
    (fill_packet id sq now).getD 1 0 = 0 ∧
    (fill_packet id sq now).getD 4 0 = id / 256 ∧
    (fill_packet id sq now).getD 5 0 = id % 256 ∧
    (fill_packet id sq now).getD 6 0 = sq / 256 ∧
    (fill_packet id sq now).getD 7 0 = sq % 256

/-- Claim C6 as stated, read against the receive path: a received datagram
shorter than the 8-byte minimum header fails decoding and is discarded, so
it is never reported as a reply. -/
def C6Claim : Prop :=
  ∀ (sq src : ℕ) (data : List ℕ) (t1 t2 : ℕ),
    0 < data.length → data.length < 8 →
    pingOutcome sq (some (src, data)) t1 t2 = Outcome.silent

/-- `++seq` on the `uint16_t` counter (line 86 of `Raw Socket.cpp`). -/
def nextSeq (sq : ℕ) : ℕ := (sq + 1) % 65536

/-- Observable events of a session.  `closed` stands for the `close(sock)`
call on line 90 of `Raw Socket.cpp`; it is a constructor of the event
alphabet so that its absence from every trace is a statement, not a
typing accident. -/
inductive Ev where
  | resolved
  | opened
  | sent (id sq : ℕ)
  | replied (src sq rtt : ℕ)
  | closed
  | errorExit
  deriving DecidableEq

/-- Events printed by the receive step. -/
def outcomeEvents : Outcome → List Ev
  | Outcome.reply src sq rtt => [Ev.replied src sq rtt]
  | Outcome.silent => []

/-- Trace of the `while (true)` loop (lines 70-88 of `Raw Socket.cpp`),
driven by a finite list of per-iteration inputs
`(recvfrom result, send instant, receive instant)`.  Each iteration sends
`fill_packet pid sq`, reports per `pingOutcome`, then increments the
sequence.  The input list running out models the only way the loop stops:
external cancellation (process kill), which ends the process right there —
the loop guard is the constant `true`, no `break` or `return` occurs in
the body, so control never reaches the code after the loop. -/
def loopEvents (pid : ℕ) : ℕ → List (Option (ℕ × List ℕ) × ℕ × ℕ) → List Ev
  | _, [] => []
  | sq, (recv, t1, t2) :: rest =>
    Ev.sent pid sq ::
      (outcomeEvents (pingOutcome sq recv t1 t2) ++ loopEvents pid (nextSeq sq) rest)

/-- Trace of one session (`main`, lines 58-94 of `Raw Socket.cpp`).
`resolveOk` and `socketOk` are the outcomes of `getaddrinfo` and
`socket`; a failure throws, lands in the `catch` block which prints the
error and returns `EXIT_FAILURE` (`errorExit`), and the `catch` block does
not close the socket.  On success the session enters the infinite ping
loop with `seq = 0`; the `close(sock)` statement after the loop is
unreachable, so no trace contains `Ev.closed`. -/
def sessionEvents (pid : ℕ) (resolveOk socketOk : Bool)
    (iters : List (Option (ℕ × List ℕ) × ℕ × ℕ)) : List Ev :=
  if resolveOk then
    if socketOk then Ev.resolved :: Ev.opened :: loopEvents pid 0 iters
    else [Ev.resolved, Ev.errorExit]
  else [Ev.errorExit]

/-- Recogniser for send events. -/
def isSent : Ev → Bool
  | Ev.sent _ _ => true
  | _ => false

/-- Identifier and sequence carried by a send event, if any. -/
def sentInfo : Ev → Option (ℕ × ℕ)
  | Ev.sent i s => some (i, s)
  | _ => none

theorem checksum_loop_eq : ∀ (l : List ℕ) (s : ℕ), s < 4294967296 →
    checksum_loop l s = (s + wordSum l) % 4294967296
  | [], s, h => by simp [checksum_loop, wordSum, Nat.mod_eq_of_lt h]
  | [b], s, h => by simp [checksum_loop, wordSum]
  | b0 :: b1 :: rest, s, h => by
    have ih := checksum_loop_eq rest ((s + (b0 + 256 * b1)) % 4294967296)
      (Nat.mod_lt _ (by norm_num))
    simp only [checksum_loop, wordSum]
    rw [ih]
    omega

theorem checksum_eq_chkFin (l : List ℕ) : checksum l = chkFin (wordSum l % 4294967296) := by
  have h := checksum_loop_eq l 0 (by norm_num)
  simp only [checksum, chkFin, h, Nat.zero_add]

theorem chkFin_zero_of (B : ℕ) (h1 : B ≤ 4294967295) (h2 : B % 65535 = 0)
    (h3 : 0 < B) : chkFin B = 0 := by
  have h4 : B / 65536 + B % 65536 = 65535 ∨ B / 65536 + B % 65536 = 131070 := by
    omega
  unfold chkFin
  rcases h4 with h | h <;> rw [h]

theorem fold_step (s : ℕ) (hs : s ≤ 131070) :
    (s + s / 65536) % 65536 % 65535 = s % 65535 := by
  have h : s / 65536 = 0 ∨ s / 65536 = 1 := by omega
  rcases h with h | h <;> rw [h] <;> omega

theorem fold_step_ge (s : ℕ) (hs : s ≤ 131070) :
    s ≤ 65535 + (s + s / 65536) % 65536 := by
  have h : s / 65536 = 0 ∨ s / 65536 = 1 := by omega
  rcases h with h | h <;> rw [h] <;> omega

theorem chkFin_eq_sub (A : ℕ) (hA : A < 4294967296) :
    chkFin A =
      65535 - (A / 65536 + A % 65536 + (A / 65536 + A % 65536) / 65536) % 65536 := by
  have hyb : A / 65536 + A % 65536 + (A / 65536 + A % 65536) / 65536 ≤ 131071 := by
    omega
  unfold chkFin
  obtain ⟨y, hy⟩ : ∃ y, A / 65536 + A % 65536 + (A / 65536 + A % 65536) / 65536 = y :=
    ⟨_, rfl⟩
  rw [hy] at hyb ⊢
  omega

theorem chkFin_facts (A : ℕ) (hA : A < 4294967296) :
    chkFin A ≤ 65535 ∧ (A + chkFin A) % 65535 = 0 ∧ 0 < A + chkFin A ∧
      A + chkFin A ≤ 4294967295 := by
  rcases Nat.eq_zero_or_pos A with rfl | hpos
  · exact ⟨by norm_num [chkFin], by norm_num [chkFin], by norm_num [chkFin],
      by norm_num [chkFin]⟩
  · have h1 : A / 65536 ≤ 65535 := by omega
    have hkey : A % 65535 = (A / 65536 + A % 65536) % 65535 := by omega
    have h2 := fold_step (A / 65536 + A % 65536) (by omega)
    have h3 := fold_step_ge (A / 65536 + A % 65536) (by omega)
    rw [chkFin_eq_sub A hA]
    obtain ⟨y, hy⟩ :
        ∃ y, (A / 65536 + A % 65536 + (A / 65536 + A % 65536) / 65536) % 65536 = y :=
      ⟨_, rfl⟩
    rw [hy] at h2 h3 ⊢
    have hyle : y ≤ 65535 := by omega
    refine ⟨by omega, by omega, by omega, by omega⟩

/-- One's-complement round-trip at the level of the 32-bit accumulator:
writing the computed checksum into a zero checksum slot makes the final
checksum vanish. -/
theorem chkFin_roundtrip (A : ℕ) (hA : A < 4294967296) :
    chkFin ((A + chkFin A) % 4294967296) = 0 := by
  obtain ⟨hle, hmod, hpos, hbound⟩ := chkFin_facts A hA
  rw [Nat.mod_eq_of_lt (by omega)]
  exact chkFin_zero_of _ hbound hmod hpos

theorem checksum_store_roundtrip (b0 b1 : ℕ) (rest : List ℕ) :
    checksum (store_cksum (b0 :: b1 :: 0 :: 0 :: rest)
      (checksum (b0 :: b1 :: 0 :: 0 :: rest))) = 0 := by
  have hc : checksum (b0 :: b1 :: 0 :: 0 :: rest)
      = chkFin ((b0 + 256 * b1 + wordSum rest) % 4294967296) := by
    rw [checksum_eq_chkFin]
    congr 1
    simp only [wordSum]
    omega
  have hlt : checksum (b0 :: b1 :: 0 :: 0 :: rest) < 65536 := by
    rw [hc]; unfold chkFin; omega
  obtain ⟨c, hcdef⟩ : ∃ c, checksum (b0 :: b1 :: 0 :: 0 :: rest) = c := ⟨_, rfl⟩
  rw [hcdef] at hc hlt
  rw [hcdef]
  have hstore : store_cksum (b0 :: b1 :: 0 :: 0 :: rest) c
      = b0 :: b1 :: c % 256 :: c / 256 :: rest := rfl
  rw [hstore, checksum_eq_chkFin]
  have hws : wordSum (b0 :: b1 :: c % 256 :: c / 256 :: rest)
      = b0 + 256 * b1 + wordSum rest + c := by
    simp only [wordSum]
    omega
  rw [hws]
  have hW : (b0 + 256 * b1 + wordSum rest + c) % 4294967296
      = ((b0 + 256 * b1 + wordSum rest) % 4294967296 + c) % 4294967296 :=
    (Nat.mod_add_mod _ _ _).symm
  rw [hW, hc]
  exact chkFin_roundtrip _ (Nat.mod_lt _ (by norm_num))

/-- C2: for every buffer whose 2-byte checksum field (offsets 2-3) is zero,
writing `checksum` of the buffer into that field yields a buffer whose
`checksum` is 0; in particular every buffer produced by `fill_packet`
(which computes the checksum last, over the otherwise complete buffer with
a zero checksum field, and mutates nothing afterwards) checksums to 0. -/
theorem c2_checksum_roundtrip :
    (∀ (b0 b1 : ℕ) (rest : List ℕ),
      checksum (store_cksum (b0 :: b1 :: 0 :: 0 :: rest)
        (checksum (b0 :: b1 :: 0 :: 0 :: rest))) = 0) ∧
    ∀ id sq now : ℕ, checksum (fill_packet id sq now) = 0 := by
  refine ⟨checksum_store_roundtrip, fun id sq now => ?_⟩
  exact checksum_store_roundtrip 8 0
    (leBytes 2 id ++ leBytes 2 sq ++ List.replicate 20 0 ++ leBytes 8 now ++
      List.replicate 28 0)

theorem foldl_wrap (ws : List ℕ) : ∀ s, s < 4294967296 →
    ws.foldl (fun a w => (a + w) % 4294967296) s = (s + ws.sum) % 4294967296 := by
  induction ws with
  | nil => intro s h; simp [Nat.mod_eq_of_lt h]
  | cons w t ih =>
    intro s h
    simp only [List.foldl_cons, List.sum_cons]
    rw [ih _ (Nat.mod_lt _ (by norm_num))]
    omega

theorem toWords16_sum : ∀ l : List ℕ, (toWords16 l).sum = wordSum l
  | [] => by simp [toWords16, wordSum]
  | [b] => by simp [toWords16, wordSum]
  | b0 :: b1 :: rest => by
    simp only [toWords16, wordSum, List.sum_cons]
    rw [toWords16_sum rest]

theorem sum32_toWords16 (l : List ℕ) : sum32 (toWords16 l) = wordSum l % 4294967296 := by
  unfold sum32
  rw [foldl_wrap _ 0 (by norm_num), toWords16_sum]
  simp

theorem chkFin_eq_inet_form (A : ℕ) (hA : A < 4294967296) :
    chkFin A = 65535 - ((A / 65536 + A % 65536) / 65536
      + (A / 65536 + A % 65536) % 65536) % 65536 := by
  rw [chkFin_eq_sub A hA]
  have h : (A / 65536 + A % 65536) / 65536 = 0 ∨
      (A / 65536 + A % 65536) / 65536 = 1 := by omega
  rcases h with h | h <;> rw [h] <;> omega

/-- C3 counterexample: on the one-byte buffer `[1]`, `checksum` yields
65534 (the lone byte entered the sum with weight 1), while the claim's
high-byte-padding formula yields 65279 (weight 256). -/
theorem c3_counterexample : ¬C3Claim := fun h => absurd (h [1]) (by decide)

/-- C3 amended: `checksum l` equals the Internet-checksum formula over the
buffer's native (little-endian) 16-bit words, where the trailing lone byte
of an odd-length buffer contributes as the LOW byte of a word whose high
byte is zero (weight 1), not as the high byte. -/
theorem c3_checksum_formula (l : List ℕ) :
    checksum l = inet_checksum (toWords16 l) := by
  rw [checksum_eq_chkFin l]
  unfold inet_checksum
  rw [sum32_toWords16 l]
  exact chkFin_eq_inet_form _ (Nat.mod_lt _ (by norm_num))

/-- C1 counterexample: the receive path validates nothing.  With session
identifier 1 and sequence 0, the one-byte datagram `[0]` (no header, no
matching identifier or sequence, no valid checksum) is still reported as a
successful reply, so the claimed only-if condition is false. -/
theorem c1_counterexample : ¬C1Claim := by
  intro h
  obtain ⟨data, heq, hlen, -, -, -, -⟩ := h 1 0 (some (7, [0])) 0 5 7 5 (by decide)
  have hd : data = [0] := by
    have h2 := heq.symm
    simp only [Option.some.injEq, Prod.mk.injEq] at h2
    exact h2.2
  subst hd
  simp at hlen

/-- C1 amended: every datagram that `recvfrom` delivers (return value
positive) is reported as a successful reply, regardless of its identifier,
sequence or checksum; the report carries the sender address, the loop's
own current sequence counter, and RTT = receive instant − send instant.
Nothing is ever discarded. -/
theorem c1_reports_any (sq : ℕ) (recv : Option (ℕ × List ℕ)) (t1 t2 src : ℕ)
    (data : List ℕ) (hr : recv = some (src, data)) (hlen : 0 < data.length) :
    pingOutcome sq recv t1 t2 = Outcome.reply src sq (t2 - t1) := by
  subst hr
  simp [pingOutcome, hlen]

/-- C1 witness: a garbage three-byte datagram from source 7 is reported as
a reply for the current sequence 0 with RTT 5. -/
theorem c1_reports_any_witness :
    pingOutcome 0 (some (7, [9, 9, 9])) 0 5 = Outcome.reply 7 0 5 :=
  c1_reports_any 0 (some (7, [9, 9, 9])) 0 5 7 [9, 9, 9] rfl (by decide)

/-- C4: evaluation of the receive path at the failing inputs.  When
`recvfrom` fails (`none`) — the only way the blocking call ends without a
datagram — the iteration reports nothing: there is no lost-reply outcome
(the `Outcome` alphabet of the source has no such constructor).  And when
an unrelated datagram arrives instead of a matching reply, the iteration
reports success rather than a loss. -/
theorem c4_no_timeout_eval :
    pingOutcome 0 none 0 5 = Outcome.silent ∧
    pingOutcome 0 (some (7, [0])) 0 5 = Outcome.reply 7 0 5 := by
  exact ⟨by decide, by decide⟩

/-- C5 counterexample: with identifier 1, byte 4 of the request is 1 — the
low byte — whereas network byte order requires the most significant byte
(0) at offset 4: `icmp_id`/`icmp_seq` are stored without `htons`. -/
theorem c5_counterexample : ¬C5Claim := by
  intro h
  obtain ⟨-, -, -, h4, -, -, -⟩ := h 1 0 0 (by norm_num) (by norm_num) (by norm_num)
  norm_num [fill_packet, fill_packet_pre, store_cksum, leBytes] at h4

/-- C5 amended: the request buffer is exactly 64 bytes; type 8 at offset
0, code 0 at offset 1, the computed checksum stored at offsets 2-3, the
identifier at offsets 4-5 and the sequence at offsets 6-7 in HOST
(little-endian) byte order — not network order — and the 64-bit
microsecond send instant inside the payload at offsets 28-35
(little-endian). -/
theorem c5_layout (id sq now : ℕ) :
    (fill_packet id sq now).length = 64 ∧
    (fill_packet id sq now).getD 0 0 = 8 ∧
    (fill_packet id sq now).getD 1 0 = 0 ∧
    (fill_packet id sq now).getD 2 0 = checksum (fill_packet_pre id sq now) % 256 ∧
    (fill_packet id sq now).getD 3 0 = checksum (fill_packet_pre id sq now) / 256 ∧
    (fill_packet id sq now).getD 4 0 = id % 256 ∧
    (fill_packet id sq now).getD 5 0 = id / 256 % 256 ∧
    (fill_packet id sq now).getD 6 0 = sq % 256 ∧
    (fill_packet id sq now).getD 7 0 = sq / 256 % 256 ∧
    (fill_packet id sq now).getD 28 0 = now % 256 ∧
    (fill_packet id sq now).getD 29 0 = now / 256 % 256 ∧
    (fill_packet id sq now).getD 30 0 = now / 256 / 256 % 256 ∧
    (fill_packet id sq now).getD 31 0 = now / 256 / 256 / 256 % 256 ∧
    (fill_packet id sq now).getD 32 0 = now / 256 / 256 / 256 / 256 % 256 ∧
    (fill_packet id sq now).getD 33 0 = now / 256 / 256 / 256 / 256 / 256 % 256 ∧
    (fill_packet id sq now).getD 34 0
      = now / 256 / 256 / 256 / 256 / 256 / 256 % 256 ∧
    (fill_packet id sq now).getD 35 0
      = now / 256 / 256 / 256 / 256 / 256 / 256 / 256 % 256 :=
  ⟨rfl, rfl, rfl, rfl, rfl, rfl, rfl, rfl, rfl, rfl, rfl, rfl, rfl, rfl, rfl,
    rfl, rfl⟩

/-- C6 counterexample: the one-byte datagram `[0]` — far below the 8-byte
minimum header — is reported as a successful reply, not discarded: the
program performs no decoding and no length validation beyond
`recvfrom(...) > 0`. -/
theorem c6_counterexample : ¬C6Claim := by
  intro h
  have h1 := h 0 7 [0] 0 5 (by decide) (by decide)
  exact absurd h1 (by decide)

/-- C6 amended: the program never decodes a received datagram: the
reported outcome depends only on the source address, the loop's sequence
and the clock instants, never on the datagram's bytes (in particular no
header field of the buffer is read, so no out-of-bounds access can occur,
and short datagrams are reported like any others). -/
theorem c6_content_independent (sq src t1 t2 : ℕ) (data data' : List ℕ)
    (h : 0 < data.length) (h' : 0 < data'.length) :
    pingOutcome sq (some (src, data)) t1 t2
      = pingOutcome sq (some (src, data')) t1 t2 := by
  simp [pingOutcome, h, h']

/-- C6 witness: a 1-byte datagram and a 9-byte datagram from the same
source produce the same outcome. -/
theorem c6_content_independent_witness :
    pingOutcome 0 (some (7, [1])) 0 5
      = pingOutcome 0 (some (7, [0, 0, 0, 0, 0, 0, 0, 0, 0])) 0 5 :=
  c6_content_independent 0 7 0 5 [1] [0, 0, 0, 0, 0, 0, 0, 0, 0]
    (by decide) (by decide)

theorem loopEvents_no_close (pid : ℕ) :
    ∀ (it : List (Option (ℕ × List ℕ) × ℕ × ℕ)) (sq : ℕ),
      Ev.closed ∉ loopEvents pid sq it
  | [], sq => by simp [loopEvents]
  | (recv, t1, t2) :: rest, sq => by
    have ih := loopEvents_no_close pid rest (nextSeq sq)
    simp only [loopEvents, List.mem_cons, List.mem_append]
    push_neg
    refine ⟨by simp, ?_, ih⟩
    cases pingOutcome sq recv t1 t2 <;> simp [outcomeEvents]

/-- C7: the socket is never closed by the program.  On the two
session-ending error paths the socket was never opened; once the loop is
entered no trace — however the session is cancelled — contains the close
event, because `close(sock)` sits after the infinite loop and is
unreachable.  Concretely, a session cancelled after one successful
iteration ends with the socket open and unclosed. -/
theorem c7_close_unreachable :
    (∀ (pid : ℕ) (r s : Bool) (it : List (Option (ℕ × List ℕ) × ℕ × ℕ)),
      Ev.closed ∉ sessionEvents pid r s it) ∧
    sessionEvents 1 true true [(some (7, [0]), 0, 5)]
      = [Ev.resolved, Ev.opened, Ev.sent 1 0, Ev.replied 7 0 5] := by
  constructor
  · intro pid r s it
    cases r
    · simp [sessionEvents]
    · cases s
      · simp [sessionEvents]
      · have hl := loopEvents_no_close pid it 0
        simp [sessionEvents, hl]
  · decide

theorem loopEvents_sentInfo (pid : ℕ) :
    ∀ (it : List (Option (ℕ × List ℕ) × ℕ × ℕ)) (sq : ℕ), sq < 65536 →
      List.filterMap sentInfo (loopEvents pid sq it)
        = (List.range it.length).map (fun k => (pid, (sq + k) % 65536))
  | [], sq, h => by simp [loopEvents]
  | (recv, t1, t2) :: rest, sq, h => by
    have ih := loopEvents_sentInfo pid rest (nextSeq sq)
      (by unfold nextSeq; omega)
    have ho : List.filterMap sentInfo (outcomeEvents (pingOutcome sq recv t1 t2))
        = [] := by
      cases pingOutcome sq recv t1 t2 <;> simp [outcomeEvents, sentInfo]
    simp only [loopEvents, List.filterMap_cons, List.filterMap_append, sentInfo]
    rw [ho, ih]
    simp only [List.length_cons, List.range_succ_eq_map, List.map_cons,
      List.map_map, List.nil_append]
    congr 1
    · simp [Nat.mod_eq_of_lt h]
    · apply List.map_congr_left
      intro k hk
      simp only [Function.comp_apply, nextSeq, Prod.mk.injEq, eq_self_iff_true,
        true_and]
      omega

/-- C8: within one session the identifier of every sent request equals the
session's process-derived value, and the sequence of the k-th sent request
is exactly k mod 65536 — the counter starts at 0 and is incremented once
per iteration whatever the iteration's outcome, wrapping at 65536. -/
theorem c8_id_seq_invariant (pid : ℕ)
    (it : List (Option (ℕ × List ℕ) × ℕ × ℕ)) :
    List.filterMap sentInfo (sessionEvents pid true true it)
      = (List.range it.length).map (fun k => (pid, k % 65536)) := by
  rw [show sessionEvents pid true true it
      = Ev.resolved :: Ev.opened :: loopEvents pid 0 it from rfl]
  rw [show List.filterMap sentInfo (Ev.resolved :: Ev.opened :: loopEvents pid 0 it)
      = List.filterMap sentInfo (loopEvents pid 0 it) from rfl]
  rw [loopEvents_sentInfo pid it 0 (by norm_num)]
  simp

theorem loopEvents_countP_sent (pid : ℕ) :
    ∀ (it : List (Option (ℕ × List ℕ) × ℕ × ℕ)) (sq : ℕ),
      (loopEvents pid sq it).countP isSent = it.length
  | [], sq => by simp [loopEvents]
  | (recv, t1, t2) :: rest, sq => by
    have ih := loopEvents_countP_sent pid rest (nextSeq sq)
    have ho : (outcomeEvents (pingOutcome sq recv t1 t2)).countP isSent = 0 := by
      cases pingOutcome sq recv t1 t2 <;> simp [outcomeEvents, isSent]
    simp only [loopEvents, List.countP_cons, List.countP_append, ho, ih,
      List.length_cons]
    simp [isSent]

theorem loopEvents_no_error (pid : ℕ) :
    ∀ (it : List (Option (ℕ × List ℕ) × ℕ × ℕ)) (sq : ℕ),
      Ev.errorExit ∉ loopEvents pid sq it
  | [], sq => by simp [loopEvents]
  | (recv, t1, t2) :: rest, sq => by
    have ih := loopEvents_no_error pid rest (nextSeq sq)
    simp only [loopEvents, List.mem_cons, List.mem_append]
    push_neg
    refine ⟨by simp, ?_, ih⟩
    cases pingOutcome sq recv t1 t2 <;> simp [outcomeEvents]

/-- C9: a resolution failure ends the session at once with only the error
report — no retry, no request built or sent; a socket-creation failure
likewise ends it right after resolution; and these are the only
session-terminating errors: on the success path every supplied iteration
sends exactly one request (per-packet receive failures and unrelated
datagrams never terminate the loop), and no error exit occurs. -/
theorem c9_error_policy :
    (∀ (pid : ℕ) (s : Bool) (it : List (Option (ℕ × List ℕ) × ℕ × ℕ)),
      sessionEvents pid false s it = [Ev.errorExit]) ∧
    (∀ (pid : ℕ) (it : List (Option (ℕ × List ℕ) × ℕ × ℕ)),
      sessionEvents pid true false it = [Ev.resolved, Ev.errorExit]) ∧
    (∀ (pid : ℕ) (it : List (Option (ℕ × List ℕ) × ℕ × ℕ)),
      (sessionEvents pid true true it).countP isSent = it.length) ∧
    ∀ (pid : ℕ) (it : List (Option (ℕ × List ℕ) × ℕ × ℕ)),
      Ev.errorExit ∉ sessionEvents pid true true it := by
  refine ⟨fun pid s it => rfl, fun pid it => rfl, fun pid it => ?_, fun pid it => ?_⟩
  · rw [show sessionEvents pid true true it
        = Ev.resolved :: Ev.opened :: loopEvents pid 0 it from rfl]
    simp only [List.countP_cons]
    rw [loopEvents_countP_sent pid it 0]
    simp [isSent]
  · rw [show sessionEvents pid true true it
        = Ev.resolved :: Ev.opened :: loopEvents pid 0 it from rfl]
    have hl := loopEvents_no_error pid it 0
    simp [hl]

/-- C10: `fill_packet` zero-fills the buffer before writing any field, so
the code byte (offset 1) is 0, the 20 bytes between the header and the
timestamp (offsets 8-27) are 0, and the 28 bytes after the timestamp
(offsets 36-63) are 0; the buffer is a pure function of the identifier,
the sequence and the clock reading taken during the call (the three
arguments of `fill_packet`). -/
theorem c10_zero_fill (id sq now : ℕ) :
    (fill_packet id sq now).getD 1 0 = 0 ∧
    ((fill_packet id sq now).drop 8).take 20 = List.replicate 20 0 ∧
    (fill_packet id sq now).drop 36 = List.replicate 28 0 :=
  ⟨rfl, rfl, rfl⟩
